import Mathlib

/-!
Verification of the WindBorne to-netcdf converter (wb_to_netcdf.py).

The development shallowly embeds the parts of the program the claims are
about:

* `output_data` — the per-mission bucketizer (source lines 125-152):
  sorts the observations by timestamp, rounds the earliest timestamp down
  to the bucket grid aligned to epoch zero, and scans once, closing a
  segment whenever `timestamp - curtime > bucket_hours*3600` and then
  advancing `curtime` by `timedelta(hours=bucket_hours).seconds`.
  Observations are represented by their integer epoch timestamps; the
  bucket width is a rational number of hours (the source takes a float).
* the accumulation loop of `main` (source lines 218-233): grouping fetched
  observations by mission name, discarding records without one with a
  diagnostic, and reporting when no mission produced observations.
* the column pipeline of `convert_to_netcdf` (source lines 61-122): the
  humidity-mixing-ratio derivation, the wind-speed / wind-direction
  formulas (over the reals), and the add/drop/rename bookkeeping of the
  variable names of the dataset together with the `flight_id` global
  attribute.
-/

namespace WbToNetcdf

/-! ### Definitions: bucketizer (`output_data`, source lines 125-152) -/

/-- The Python expression `a % b` on numbers, for a positive modulus:
`a - b * floor (a / b)`. -/
def pymod (a b : ℚ) : ℚ := a - b * ⌊a / b⌋

/-- `datetime.timedelta(hours=h).seconds` for `h ≥ 0`: the whole-second part of
`h*3600`, reduced modulo one day (86400), because the `timedelta`
normalisation stores days separately.  For `h = 24` this is `0`, not
`86400`. -/
def tdSeconds (h : ℚ) : ℤ := ⌊h * 3600⌋ % 86400

/-- The scan loop of `output_data` (source lines 139-147).  `cur` is `curtime`,
`acc` is the slice `observations[start_index:i]` accumulated so far, and the
result is the list of `(curtime, segment)` pairs emitted inside the loop
followed by the final `curtime` and the trailing slice
`observations[start_index:]`.  Faithful to the source, the boundary test is the
strict `timestamp - curtime > w` and is applied exactly once per observation:
after a segment closes, the scan moves on to the next observation without
re-checking the one that triggered the close. -/
def bucketScan (w : ℚ) (inc : ℤ) : ℚ → List ℤ → List ℤ →
    List (ℚ × List ℤ) × ℚ × List ℤ
  | cur, acc, [] => ([], cur, acc)
  | cur, acc, t :: rest =>
    if w < (t : ℚ) - cur then
      let r := bucketScan w inc (cur + inc) [t] rest
      ((cur, acc) :: r.1, r.2)
    else
      bucketScan w inc cur (acc ++ [t]) rest

/-- `output_data` (source lines 125-152).  Sorts the observations, initialises
`curtime = earliest - earliest % (bucket_hours*3600)`, and runs the scan loop.
`starttime` only feeds a diagnostic print in the source and does not affect the
partition.  On an empty observation list the source raises `IndexError` at
`accumulated_observations[0]`; this is modelled as `none`. -/
def output_data (obs : List ℤ) (bucket_hours : ℚ) (starttime : ℤ) :
    Option (List (ℚ × List ℤ) × ℚ × List ℤ) :=
  match obs.insertionSort (· ≤ ·) with
  | [] => none
  | e :: rest =>
    let w := bucket_hours * 3600
    let cur0 := (e : ℚ) - pymod (e : ℚ) w
    some (bucketScan w (tdSeconds bucket_hours) cur0 [] (e :: rest))

/-! ### Definitions: accumulation loop of `main` (source lines 197-236) -/

/-- A fetched observation, as far as the accumulation loop inspects it: an
optional mission name (the source tests membership of the key) and its
timestamp. -/
structure RawObs where
  missionName : Option String
  timestamp : ℤ
deriving DecidableEq, Repr

/-- Appending one observation to the group of mission `n` in the
insertion-ordered mapping `observations_by_mission` (source lines 222-225): a
new mission key is added at the end, an existing group is extended at its
end. -/
def addObs : List (String × List RawObs) → String → RawObs →
    List (String × List RawObs)
  | [], n, o => [(n, [o])]
  | (k, g) :: rest, n, o =>
    if k = n then (k, g ++ [o]) :: rest else (k, g) :: addObs rest n o

/-- The mutable state of the accumulation loop: the per-mission groups, the
flat list of all kept observations, and the diagnostics printed so far. -/
structure AccState where
  byMission : List (String × List RawObs)
  accumulated : List RawObs
  logs : List String
deriving DecidableEq, Repr

/-- The diagnostic printed for an observation without a mission name
(source line 220). -/
def missingNameLog : String := "got an ob without a mission name???"

/-- One iteration of the inner loop of `main` (source lines 218-226): an
observation without a mission name is logged and skipped, any other is
appended to its mission group and to the flat list. -/
def accumStep (s : AccState) (o : RawObs) : AccState :=
  match o.missionName with
  | none => { s with logs := s.logs ++ [missingNameLog] }
  | some n =>
    { byMission := addObs s.byMission n o
      accumulated := s.accumulated ++ [o]
      logs := s.logs }

/-- The whole accumulation phase over the concatenation of all fetched pages,
started from the empty state (source lines 197-226). -/
def accumulate (fetched : List RawObs) : AccState :=
  fetched.foldl accumStep ⟨[], [], []⟩

/-- The notice printed when no mission produced observations
(source line 232). -/
def noObsNotice : String := "No observations found"

/-- The files produced for one mission: one per segment of `output_data`,
recorded as the pair of the bucket start passed to `convert_to_netcdf` and the
segment length. -/
def writeFiles (g : List RawObs) (bh : ℚ) (st : ℤ) : List (ℚ × ℕ) :=
  match output_data (g.map (fun o => o.timestamp)) bh st with
  | none => []
  | some (segs, fincur, tail) =>
    segs.map (fun p => (p.1, p.2.length)) ++ [(fincur, tail.length)]

/-- The tail of `main` after all pages are fetched (source lines 231-236): if
no mission produced observations, print the notice and return without writing
any file; otherwise write the files of every mission.  The result is the pair
of the diagnostic lines and the files written. -/
def mainProcess (fetched : List RawObs) (bh : ℚ) (st : ℤ) :
    List String × List (ℚ × ℕ) :=
  let s := accumulate fetched
  if s.byMission = [] then (s.logs ++ [noObsNotice], [])
  else (s.logs, (s.byMission.map (fun p => writeFiles p.2 bh st)).flatten)

/-! ### Definitions: column pipeline of `convert_to_netcdf`
(source lines 42-123) -/

/-- The conversion constant `mg_to_kg = 1000000.` (source line 73). -/
def mgToKg : ℚ := 1000000

/-- The element-wise mixing-ratio formula of source line 75:
`(q / mg_to_kg) / (1 - q / mg_to_kg)`. -/
def mixing_ratio (q : ℚ) : ℚ := (q / mgToKg) / (1 - q / mgToKg)

/-- The humidity branch of source lines 74-77 on the `specific_humidity`
column (one optional value per row): if at least one row is present, apply the
formula element-wise, with missing rows propagated as missing (a `None` entry
of a numeric column takes part in the arithmetic as NaN and stays missing);
otherwise pass the column through unchanged. -/
def humidity_mixing_ratio_col (sh : List (Option ℚ)) : List (Option ℚ) :=
  if sh.all (fun x => x.isNone) then sh
  else sh.map (fun x => x.map mixing_ratio)

/-- `rename_dict` (source lines 48-58). -/
def rename_dict : List (String × String) :=
  [("latitude", "lat"), ("longitude", "lon"), ("altitude", "altitude"),
   ("temperature", "air_temperature"), ("wind_direction", "wind_direction"),
   ("wind_speed", "wind_speed"), ("pressure", "air_pressure"),
   ("humidity_mixing_ratio", "humidity_mixing_ratio"), ("index", "obs")]

/-- The variables dropped on source lines 87-88. -/
def dropped_vars : List String :=
  ["humidity", "speed_u", "speed_v", "specific_humidity", "timestamp",
   "mission_name"]

/-- The renaming of one variable (source line 91): a key of `rename_dict` is
replaced by its value, anything else keeps its name. -/
def renameVar (c : String) : String := (rename_dict.lookup c).getD c

/-- The persisted-variable set of the output dataset as a function of the
input columns: `convert_to_netcdf` adds the derived columns
`humidity_mixing_ratio`, `wind_speed`, `wind_direction` and `time`
(source lines 75-84), drops the intermediate-only variables
(source lines 87-88) and renames the rest (source line 91). -/
def persistedVars (cols : List String) : List String :=
  ((cols ++ ["humidity_mixing_ratio", "wind_speed", "wind_direction", "time"]).filter
    (fun c => !(dropped_vars.contains c))).map renameVar

/-- The value stored as the `flight_id` global attribute (source lines 67 and
120): the first entry of the `mission_name` column; `none` models the
`IndexError` of an empty column. -/
def flight_id (missionCol : List String) : Option String := missionCol.head?

/-! ### Definitions: wind formulas (source lines 80-81), over the reals -/

/-- `np.arctan2 y x`: the angle of the point `(x, y)` in `(-pi, pi]`, with
`arctan2 0 0 = 0`. -/
noncomputable def arctan2 (y x : ℝ) : ℝ :=
  if 0 < x then Real.arctan (y / x)
  else if x < 0 then
    (if 0 ≤ y then Real.arctan (y / x) + Real.pi
     else Real.arctan (y / x) - Real.pi)
  else if 0 < y then Real.pi / 2
  else if y < 0 then -(Real.pi / 2)
  else 0

/-- `np.mod a b` on reals: `a - b * floor (a / b)`. -/
noncomputable def npMod (a b : ℝ) : ℝ := a - b * ⌊a / b⌋

/-- `wind_speed` (source line 80): `sqrt (u*u + v*v)`. -/
noncomputable def wind_speed (u v : ℝ) : ℝ := Real.sqrt (u * u + v * v)

/-- `wind_direction` (source line 81):
`np.mod (180 + (180 / pi) * arctan2 u v) 360`. -/
noncomputable def wind_direction (u v : ℝ) : ℝ :=
  npMod (180 + (180 / Real.pi) * arctan2 u v) 360


/-! ### Helper lemmas -/

theorem pymod_nonneg (a : ℚ) {b : ℚ} (hb : 0 < b) : 0 ≤ pymod a b := by
  have h1 : ((⌊a / b⌋ : ℚ)) ≤ a / b := Int.floor_le _
  have h2 : b * ((⌊a / b⌋ : ℚ)) ≤ b * (a / b) := mul_le_mul_of_nonneg_left h1 hb.le
  have h3 : b * (a / b) = a := by field_simp
  unfold pymod
  linarith

theorem pymod_lt (a : ℚ) {b : ℚ} (hb : 0 < b) : pymod a b < b := by
  have h1 : a / b < (⌊a / b⌋ : ℚ) + 1 := Int.lt_floor_add_one _
  have h2 : b * (a / b) < b * ((⌊a / b⌋ : ℚ) + 1) := mul_lt_mul_of_pos_left h1 hb
  have h3 : b * (a / b) = a := by field_simp
  have h4 : b * ((⌊a / b⌋ : ℚ) + 1) = b * (⌊a / b⌋ : ℚ) + b := by ring
  unfold pymod
  linarith

theorem bucketScan_cons (w : ℚ) (inc : ℤ) (cur : ℚ) (acc : List ℤ) (t : ℤ)
    (rest : List ℤ) :
    bucketScan w inc cur acc (t :: rest) =
      if w < (t : ℚ) - cur then
        ((cur, acc) :: (bucketScan w inc (cur + inc) [t] rest).1,
          (bucketScan w inc (cur + inc) [t] rest).2)
      else bucketScan w inc cur (acc ++ [t]) rest := rfl

theorem bucketScan_concat (w : ℚ) (inc : ℤ) :
    ∀ (rest : List ℤ) (cur : ℚ) (acc : List ℤ),
    ((bucketScan w inc cur acc rest).1.map Prod.snd).flatten
        ++ (bucketScan w inc cur acc rest).2.2 = acc ++ rest := by
  intro rest
  induction rest with
  | nil => intro cur acc; simp [bucketScan]
  | cons t ts ih =>
    intro cur acc
    rw [bucketScan_cons]
    by_cases h : w < (t : ℚ) - cur
    · rw [if_pos h]
      simp only [List.map_cons, List.flatten_cons, List.append_assoc]
      rw [ih]
      simp
    · rw [if_neg h, ih]
      simp

theorem bucketScan_all_nonempty (w : ℚ) (inc : ℤ) :
    ∀ (rest : List ℤ) (cur : ℚ) (acc : List ℤ), acc ≠ [] →
      (∀ p ∈ (bucketScan w inc cur acc rest).1, p.2 ≠ []) ∧
      (bucketScan w inc cur acc rest).2.2 ≠ [] := by
  intro rest
  induction rest with
  | nil =>
    intro cur acc ha
    refine ⟨?_, by simpa [bucketScan] using ha⟩
    intro p hp
    simp [bucketScan] at hp
  | cons t ts ih =>
    intro cur acc ha
    rw [bucketScan_cons]
    by_cases h : w < (t : ℚ) - cur
    · rw [if_pos h]
      obtain ⟨ih1, ih2⟩ := ih (cur + inc) [t] (by simp)
      refine ⟨?_, ih2⟩
      intro p hp
      rcases List.mem_cons.mp hp with rfl | hp'
      · exact ha
      · exact ih1 p hp'
    · rw [if_neg h]
      exact ih cur (acc ++ [t]) (by simp)

theorem output_data_eq_scan (obs : List ℤ) (bh : ℚ) (st : ℤ) (hne : obs ≠ []) :
    ∃ e rest, obs.insertionSort (· ≤ ·) = e :: rest ∧
      output_data obs bh st =
        some (bucketScan (bh * 3600) (tdSeconds bh)
          ((e : ℚ) - pymod (e : ℚ) (bh * 3600)) [] (e :: rest)) := by
  have hperm := List.perm_insertionSort (· ≤ ·) obs
  cases hs : obs.insertionSort (· ≤ ·) with
  | nil =>
    rw [hs] at hperm
    exact absurd hperm.symm.eq_nil hne
  | cons e rest =>
    refine ⟨e, rest, rfl, ?_⟩
    unfold output_data
    rw [hs]

/-- Claim C3: for every bucket width and every (nonempty) observation list,
the segments emitted by the bucketizer — the loop-emitted segments followed by
the trailing segment — concatenate, in emission order, to exactly the sorted
input list; hence they are pairwise disjoint, ordered by time, and reproduce
the exact multiset of input observations, each appearing in exactly one
segment. -/
theorem output_data_partition (obs : List ℤ) (bh : ℚ) (st : ℤ)
    (hne : obs ≠ []) :
    ∃ segs fincur tail, output_data obs bh st = some (segs, fincur, tail) ∧
      (segs.map Prod.snd).flatten ++ tail = obs.insertionSort (· ≤ ·) ∧
      List.Perm ((segs.map Prod.snd).flatten ++ tail) obs ∧
      List.Sorted (· ≤ ·) ((segs.map Prod.snd).flatten ++ tail) := by
  obtain ⟨e, rest, hs, hout⟩ := output_data_eq_scan obs bh st hne
  set r := bucketScan (bh * 3600) (tdSeconds bh)
    ((e : ℚ) - pymod (e : ℚ) (bh * 3600)) [] (e :: rest) with hr
  have hconcat : (r.1.map Prod.snd).flatten ++ r.2.2 = [] ++ (e :: rest) :=
    bucketScan_concat _ _ _ _ _
  rw [List.nil_append, ← hs] at hconcat
  refine ⟨r.1, r.2.1, r.2.2, hout, hconcat, ?_, ?_⟩
  · rw [hconcat]
    exact List.perm_insertionSort _ obs
  · rw [hconcat]
    exact List.sorted_insertionSort _ obs

theorem output_data_partition_witness :
    ∃ segs fincur tail,
      output_data [5, 2] 1 0 = some (segs, fincur, tail) ∧
      (segs.map Prod.snd).flatten ++ tail = [5, 2].insertionSort (· ≤ ·) ∧
      List.Perm ((segs.map Prod.snd).flatten ++ tail) [5, 2] ∧
      List.Sorted (· ≤ ·) ((segs.map Prod.snd).flatten ++ tail) :=
  output_data_partition [5, 2] 1 0 (by decide)

/-- Claim C10: for every nonempty observation list and positive bucket width,
every segment the bucketizer passes to the converter — the loop-emitted ones
and the trailing one — is nonempty, so the converter access
`ds[mission_name].data[0]` never indexes an empty array. -/
theorem output_data_segments_nonempty (obs : List ℤ) (bh : ℚ) (st : ℤ)
    (hne : obs ≠ []) (hb : 0 < bh) :
    ∃ segs fincur tail, output_data obs bh st = some (segs, fincur, tail) ∧
      (∀ p ∈ segs, p.2 ≠ []) ∧ tail ≠ [] := by
  obtain ⟨e, rest, hs, hout⟩ := output_data_eq_scan obs bh st hne
  have hw : 0 < bh * 3600 := by positivity
  have hfirst : ¬ (bh * 3600 < (e : ℚ) - ((e : ℚ) - pymod (e : ℚ) (bh * 3600))) := by
    rw [sub_sub_cancel]
    exact not_lt.mpr (pymod_lt _ hw).le
  rw [bucketScan_cons, if_neg hfirst] at hout
  set r := bucketScan (bh * 3600) (tdSeconds bh)
    ((e : ℚ) - pymod (e : ℚ) (bh * 3600)) ([] ++ [e]) rest with hr
  obtain ⟨h1, h2⟩ := bucketScan_all_nonempty (bh * 3600) (tdSeconds bh) rest
    ((e : ℚ) - pymod (e : ℚ) (bh * 3600)) ([] ++ [e]) (by simp)
  exact ⟨r.1, r.2.1, r.2.2, hout, h1, h2⟩

theorem output_data_segments_nonempty_witness :
    ∃ segs fincur tail,
      output_data [100, 7300] 2 0 = some (segs, fincur, tail) ∧
      (∀ p ∈ segs, p.2 ≠ []) ∧ tail ≠ [] :=
  output_data_segments_nonempty [100, 7300] 2 0 (by decide) (by norm_num)

/-- Claim C5: two observations at t=100 and t=7300 with bucket_hours=2 and
starttime=0: curtime starts at 0, the first observation stays in the bucket
starting at 0, the second opens the bucket starting at 7200, and exactly two
segments of one observation each result. -/
theorem output_data_two_hour_scenario :
    output_data [100, 7300] 2 0 = some ([(0, [100])], 7200, [7300]) := by
  norm_num [output_data, bucketScan, pymod, tdSeconds, List.insertionSort,
    List.orderedInsert]

/-- Claim C1 (refuting evidence): on observations at t=0, t=100000, t=100001
with bucket_hours=1, the bucketizer emits the non-trailing segment
(curtime 3600, [100000]) although 100000 lies far outside
[3600, 3600 + 3600): the loop advances curtime by one bucket only and never
re-applies the boundary check at the same scan position, so a gap spanning
many buckets mislabels the following segment. -/
theorem output_data_gap_violates_invariant :
    output_data [0, 100000, 100001] 1 0
        = some ([(0, [0]), (3600, [100000])], 7200, [100001]) ∧
      ¬ ((100000 : ℚ) < 3600 + 1 * 3600) := by
  constructor
  · norm_num [output_data, bucketScan, pymod, tdSeconds, List.insertionSort,
      List.orderedInsert]
  · norm_num

/-- Claim C2 (refuting evidence): with bucket_hours=24 and observations at t=0
and t=90000, the increment datetime.timedelta(hours=24).seconds is 0, so the
bucket start of the second (trailing) segment equals the first bucket start 0
instead of exceeding it by 24*3600: consecutive bucket starts do not differ by
bucket_seconds. -/
theorem output_data_increment_wraps_at_24h :
    output_data [0, 90000] 24 0 = some ([(0, [0])], 0, [90000]) ∧
      tdSeconds 24 = 0 ∧ ¬ ((0 : ℚ) = 0 + 24 * 3600) := by
  refine ⟨?_, by norm_num [tdSeconds], by norm_num⟩
  norm_num [output_data, bucketScan, pymod, tdSeconds, List.insertionSort,
    List.orderedInsert]

theorem npMod_nonneg (a : ℝ) {b : ℝ} (hb : 0 < b) : 0 ≤ npMod a b := by
  have h1 : ((⌊a / b⌋ : ℝ)) ≤ a / b := Int.floor_le _
  have h2 : b * ((⌊a / b⌋ : ℝ)) ≤ b * (a / b) := mul_le_mul_of_nonneg_left h1 hb.le
  have h3 : b * (a / b) = a := by field_simp
  unfold npMod
  linarith

theorem npMod_lt (a : ℝ) {b : ℝ} (hb : 0 < b) : npMod a b < b := by
  have h1 : a / b < (⌊a / b⌋ : ℝ) + 1 := Int.lt_floor_add_one _
  have h2 : b * (a / b) < b * ((⌊a / b⌋ : ℝ) + 1) := mul_lt_mul_of_pos_left h1 hb
  have h3 : b * (a / b) = a := by field_simp
  have h4 : b * ((⌊a / b⌋ : ℝ) + 1) = b * (⌊a / b⌋ : ℝ) + b := by ring
  unfold npMod
  linarith

/-- Claim C6: for all (finite) wind components, the derived wind speed
sqrt (u*u + v*v) is non-negative and the derived wind direction
mod (180 + (180/pi) * arctan2 u v) 360 lies in [0, 360). -/
theorem wind_outputs_in_range (u v : ℝ) :
    0 ≤ wind_speed u v ∧ 0 ≤ wind_direction u v ∧ wind_direction u v < 360 :=
  ⟨Real.sqrt_nonneg _, npMod_nonneg _ (by norm_num), npMod_lt _ (by norm_num)⟩

/-- Claim C4: when the specific-humidity column is not missing in every row,
the derived humidity mixing ratio is the element-wise
(q/1e6) / (1 - q/1e6) with missing rows propagated; the value at
q = 500000 is exactly 1; and an all-missing column is passed through as
missing rather than replaced by a computed zero. -/
theorem humidity_mixing_ratio_correct :
    (∀ sh : List (Option ℚ), sh.all (fun x => x.isNone) = false →
        humidity_mixing_ratio_col sh = sh.map (fun x => x.map mixing_ratio)) ∧
    mixing_ratio 500000 = 1 ∧
    (∀ sh : List (Option ℚ), sh.all (fun x => x.isNone) = true →
        humidity_mixing_ratio_col sh = sh) := by
  refine ⟨?_, ?_, ?_⟩
  · intro sh h
    simp [humidity_mixing_ratio_col, h]
  · norm_num [mixing_ratio, mgToKg]
  · intro sh h
    simp [humidity_mixing_ratio_col, h]

theorem humidity_mixing_ratio_correct_witness :
    humidity_mixing_ratio_col [some 500000, none] = [some 1, none] ∧
    humidity_mixing_ratio_col [none, none] = [none, none] := by
  constructor
  · rw [humidity_mixing_ratio_correct.1 [some 500000, none] rfl]
    simp only [List.map_cons, List.map_nil, Option.map_some', Option.map_none']
    rw [humidity_mixing_ratio_correct.2.1]
  · exact humidity_mixing_ratio_correct.2.2 [none, none] rfl

theorem lookup_mem : ∀ {l : List (String × String)} {a v : String},
    l.lookup a = some v → (a, v) ∈ l := by
  intro l
  induction l with
  | nil => intro a v h; simp [List.lookup] at h
  | cons p rest ih =>
    intro a v h
    obtain ⟨k, b⟩ := p
    rw [List.lookup] at h
    by_cases hk : a == k
    · simp only [hk] at h
      have hak : a = k := by simpa using hk
      subst hak
      simp only [Option.some.injEq] at h
      subst h
      exact List.mem_cons_self _ _
    · simp only [Bool.not_eq_true] at hk
      simp only [hk] at h
      exact List.mem_cons_of_mem _ (ih h)

theorem renameVar_not_dropped (c : String)
    (h : dropped_vars.contains c = false) :
    dropped_vars.contains (renameVar c) = false := by
  unfold renameVar
  cases hl : rename_dict.lookup c with
  | none => simpa using h
  | some v =>
    have hv : (c, v) ∈ rename_dict := lookup_mem hl
    have hall : ∀ p ∈ rename_dict, dropped_vars.contains p.2 = false := by decide
    simpa using hall _ hv

/-- Claim C9: whatever columns the segment arrives with, the
persisted-variable set after derivation, drop and rename contains none of the
intermediate-only fields humidity, speed_u, speed_v, specific_humidity,
timestamp and mission_name; the first value of the mission-name column is
retained only as the flight_id global attribute. -/
theorem persisted_vars_exclude_intermediates :
    (∀ (cols : List String) (c : String), c ∈ persistedVars cols →
        dropped_vars.contains c = false) ∧
    (∀ (m : String) (ms : List String), flight_id (m :: ms) = some m) := by
  constructor
  · intro cols c hc
    simp only [persistedVars, List.mem_map, List.mem_filter] at hc
    obtain ⟨c', ⟨hc'mem, hc'drop⟩, rfl⟩ := hc
    apply renameVar_not_dropped
    simpa using hc'drop
  · intro m ms
    rfl

theorem persisted_vars_exclude_intermediates_witness :
    dropped_vars.contains "lat" = false ∧
    flight_id ["W-1594XYZ"] = some "W-1594XYZ" :=
  ⟨persisted_vars_exclude_intermediates.1 ["latitude", "timestamp"] "lat"
      (by decide),
    persisted_vars_exclude_intermediates.2 "W-1594XYZ" []⟩

theorem addObs_groups_named (n : String) (o : RawObs)
    (ho : o.missionName = some n) :
    ∀ (m : List (String × List RawObs)),
      (∀ p ∈ m, ∀ x ∈ p.2, x.missionName = some p.1) →
      ∀ p ∈ addObs m n o, ∀ x ∈ p.2, x.missionName = some p.1 := by
  intro m
  induction m with
  | nil =>
    intro _ p hp x hx
    simp only [addObs, List.mem_singleton] at hp
    subst hp
    simp only [List.mem_singleton] at hx
    subst hx
    exact ho
  | cons q rest ih =>
    obtain ⟨k, g⟩ := q
    intro hm p hp x hx
    rw [addObs] at hp
    by_cases hk : k = n
    · rw [if_pos hk] at hp
      rcases List.mem_cons.mp hp with rfl | hp'
      · rcases List.mem_append.mp hx with hx' | hx'
        · exact hm (k, g) (List.mem_cons_self _ _) x hx'
        · simp only [List.mem_singleton] at hx'
          subst hx'
          rw [ho, hk]
      · exact hm p (List.mem_cons_of_mem _ hp') x hx
    · rw [if_neg hk] at hp
      rcases List.mem_cons.mp hp with rfl | hp'
      · exact hm (k, g) (List.mem_cons_self _ _) x hx
      · exact ih (fun r hr => hm r (List.mem_cons_of_mem _ hr)) p hp' x hx

theorem accumulate_loop_inv :
    ∀ (l : List RawObs) (s : AccState),
      (∀ p ∈ s.byMission, ∀ x ∈ p.2, x.missionName = some p.1) →
      (∀ p ∈ (l.foldl accumStep s).byMission, ∀ x ∈ p.2,
          x.missionName = some p.1) ∧
      (l.foldl accumStep s).logs.length
        = s.logs.length + (l.filter (fun o => o.missionName.isNone)).length := by
  intro l
  induction l with
  | nil =>
    intro s hs
    simpa using hs
  | cons o rest ih =>
    intro s hs
    rw [List.foldl_cons]
    cases ho : o.missionName with
    | none =>
      have hstep : accumStep s o = { s with logs := s.logs ++ [missingNameLog] } := by
        simp [accumStep, ho]
      rw [hstep]
      obtain ⟨h1, h2⟩ := ih { s with logs := s.logs ++ [missingNameLog] }
        (by simpa using hs)
      refine ⟨h1, ?_⟩
      rw [h2]
      simp [List.filter_cons, ho]
      omega
    | some n =>
      have hstep : accumStep s o =
          { byMission := addObs s.byMission n o
            accumulated := s.accumulated ++ [o]
            logs := s.logs } := by
        simp [accumStep, ho]
      rw [hstep]
      obtain ⟨h1, h2⟩ := ih
        { byMission := addObs s.byMission n o
          accumulated := s.accumulated ++ [o]
          logs := s.logs }
        (by simpa using addObs_groups_named n o ho s.byMission hs)
      refine ⟨h1, ?_⟩
      rw [h2]
      simp [List.filter_cons, ho]

/-- Claim C7: every observation stored in a mission group carries that
mission's name, so a fetched observation without a mission name is in no
group (and hence in no output file); one diagnostic line is logged per such
observation and the accumulation completes over the whole list. -/
theorem accumulate_drops_unnamed (fetched : List RawObs) :
    (∀ p ∈ (accumulate fetched).byMission, ∀ o ∈ p.2,
        o.missionName = some p.1) ∧
    (∀ o ∈ fetched, o.missionName = none →
        ∀ p ∈ (accumulate fetched).byMission, o ∉ p.2) ∧
    (accumulate fetched).logs.length
      = (fetched.filter (fun o => o.missionName.isNone)).length := by
  obtain ⟨h1, h2⟩ := accumulate_loop_inv fetched ⟨[], [], []⟩ (by simp)
  refine ⟨h1, ?_, by simpa using h2⟩
  intro o _ hnone p hp hmem
  have := h1 p hp o hmem
  rw [hnone] at this
  exact Option.noConfusion this

theorem accumulate_drops_unnamed_witness :
    (⟨some "W-1594", 5⟩ : RawObs).missionName = some "W-1594" ∧
    (accumulate [⟨some "W-1594", 5⟩, ⟨none, 6⟩]).logs.length
      = ([⟨some "W-1594", 5⟩, (⟨none, 6⟩ : RawObs)].filter
          (fun o => o.missionName.isNone)).length :=
  ⟨(accumulate_drops_unnamed [⟨some "W-1594", 5⟩, ⟨none, 6⟩]).1
      ("W-1594", [⟨some "W-1594", 5⟩]) (by decide) ⟨some "W-1594", 5⟩ (by decide),
    (accumulate_drops_unnamed [⟨some "W-1594", 5⟩, ⟨none, 6⟩]).2.2⟩

/-- Claim C8: when, after all pages are exhausted, no mission produced any
observations, the run prints the notice "No observations found", writes no
files, and returns normally. -/
theorem mainProcess_no_observations (fetched : List RawObs) (bh : ℚ) (st : ℤ)
    (h : (accumulate fetched).byMission = []) :
    (mainProcess fetched bh st).2 = [] ∧
    noObsNotice ∈ (mainProcess fetched bh st).1 := by
  simp [mainProcess, h, noObsNotice]

theorem mainProcess_no_observations_witness :
    (mainProcess [] 6 0).2 = [] ∧ noObsNotice ∈ (mainProcess [] 6 0).1 :=
  mainProcess_no_observations [] 6 0 rfl

end WbToNetcdf
